import Mathlib

/-!
Shallow embedding of the retrieval core of the AI-Vector-DataBase PDF search
application (`vector_store.cpp`, `vector_store.h`, `gemini_api.cpp`,
`mainwindow.cpp`).  The repository ships three historical revisions of
`vector_store.cpp`; the embedding follows the newest one — the revision whose
`hybridSearch` takes a `SearchOptions` argument, which is the only overload
declared in `vector_store.h`.

Modelling conventions:
* `double` / `float` score arithmetic is modelled over `ℚ`; every numeric
  literal in the modelled code (0.5, 0.3, 60.0, 0.95, 0.15, 0.4, ...) is
  exactly representable.
* SQL tables are modelled as lists of typed rows; SQL `AVG` returns `none`
  (NULL) on an empty row set, and `QVariant::toFloat` of NULL is `0`.
* `std::sqrt`, `qExp`, `qLn` and `cosineSimilarity` produce irrational values;
  where a modelled routine consumes such a value but no verified property
  depends on it, the value (or the function computing it) is passed in as an
  explicit parameter.
-/

/-! ## Persistent store schema (`VectorStore::init`)

`init` reads `PRAGMA user_version` and applies the numbered migration blocks
in order.  Each migration is modelled as a transformation of the cumulative
column lists. -/

/-- The column lists of the SQLite schema built by `VectorStore::init`. -/
structure DbSchema where
  embeddings : List String
  retrievalLogs : List String
  workspaceMetadata : List String
  hasFts : Bool
  deriving Repr, DecidableEq

/-- The schema of a fresh database file, before any migration runs. -/
def emptyDb : DbSchema := ⟨[], [], [], false⟩

/-- `VectorStore::init` of the newest revision: the `if (version < k)` blocks,
applied in program order.  v15 ("Rank Stability Signals") adds only the
`mmr_decay` column to `retrieval_logs`. -/
def initSchema (version : Nat) (s : DbSchema) : DbSchema :=
  let s := if version < 1 then
    { s with embeddings := ["id", "source_file", "text_chunk", "vector_blob"] } else s
  let s := if version < 2 then
    { s with embeddings := s.embeddings ++ ["doc_id", "page_num", "model_sig", "created_at"] } else s
  let s := if version < 6 then
    { s with embeddings := s.embeddings ++ ["chunk_idx", "model_dim", "token_count", "doc_version"],
             hasFts := true,
             retrievalLogs := ["id", "query", "semantic_rank", "keyword_rank", "final_rank",
                               "latency_embedding", "latency_search", "latency_fusion",
                               "latency_rerank", "top_score", "created_at"] } else s
  let s := if version < 7 then
    { s with embeddings := s.embeddings ++ ["chapter_title", "section_title", "chunk_type"] } else s
  let s := if version < 8 then
    { s with embeddings := s.embeddings ++ ["heading_path", "heading_level"] } else s
  let s := if version < 9 then
    { s with embeddings := s.embeddings ++ ["heading_vec_blob"] } else s
  let s := if version < 10 then
    { s with embeddings := s.embeddings ++ ["sentence_count", "list_type", "list_length"] } else s
  let s := if version < 11 then
    { s with workspaceMetadata := ["key", "value"] } else s
  let s := if version < 12 then
    { s with embeddings := s.embeddings ++ ["boost_factor"] } else s
  let s := if version < 15 then
    { s with retrievalLogs := s.retrievalLogs ++ ["mmr_decay"] } else s
  s

/-- The cumulative schema at the highest version, reached from a fresh file. -/
def freshSchema : DbSchema := initSchema 0 emptyDb

/-- The column list named by the INSERT in the newest `VectorStore::logRetrieval`
(13-argument overload). -/
def logRetrievalInsertColumns : List String :=
  ["query", "semantic_rank", "keyword_rank", "final_rank",
   "latency_embed", "latency_search", "latency_fusion", "latency_rerank",
   "top_score", "mmr_penalty", "is_exploration", "rank_delta", "mmr_decay"]

/-- The column list named by the INSERT in `VectorStore::addInteraction`. -/
def addInteractionInsertColumns : List String :=
  ["query", "final_rank", "top_score", "is_exploration"]

/-- An SQLite INSERT succeeds only when every named column exists in the
target table. -/
def insertOk (tableCols insertCols : List String) : Bool :=
  insertCols.all (fun c => tableCols.contains c)

/-! ## Retrieval-log rows and the stability regulator -/

/-- One row of `retrieval_logs`, restricted to the fields the verified
properties read.  `rankDelta = none` models SQL NULL. -/
structure LogRow where
  query : String := ""
  finalRank : Int := 0
  topScore : ℚ := 0
  rankDelta : Option Int := none
  isExploration : Bool := false
  deriving Repr, DecidableEq

/-- Qt's `qMax`. -/
def qMaxQ (a b : ℚ) : ℚ := if a < b then b else a

/-- Qt's `qBound lo x hi`. -/
def qBoundQ (lo x hi : ℚ) : ℚ := qMaxQ lo (if hi < x then hi else x)

/-- SQL `AVG(ABS(x))` over a column: NULL values are ignored; the aggregate is
NULL (`none`) when no non-NULL value remains. -/
def sqlAvgAbs (vals : List (Option Int)) : Option ℚ :=
  let xs := (vals.filterMap id).map (fun d => ((d.natAbs : ℚ)))
  if xs.isEmpty then none else some (xs.sum / xs.length)

/-- `QVariant::toFloat` of an SQL NULL is `0.0`. -/
def readFloat (v : Option ℚ) : ℚ := v.getD 0

/-- Rows matching `WHERE query = :q AND is_exploration = 0`. -/
def matchingRows (logs : List LogRow) (q : String) : List LogRow :=
  logs.filter (fun r => r.query = q ∧ r.isExploration = false)

/-- Result rows of
`SELECT AVG(ABS(rank_delta)) FROM retrieval_logs WHERE query = :q AND is_exploration = 0 LIMIT 10`:
the aggregate produces a single row, and `LIMIT 10` applies to that output row,
not to the rows being averaged. -/
def stabilityQueryRows (logs : List LogRow) (q : String) : List (Option ℚ) :=
  ([sqlAvgAbs ((matchingRows logs q).map (·.rankDelta))]).take 10

/-- The Phase 4.4 stability computation of `VectorStore::hybridSearch`.
`columnsPresent = false` models the shipped schema, where `rank_delta` and
`is_exploration` do not exist, `exec()` fails, and the seed value `1.0f`
survives. -/
def queryStability (columnsPresent : Bool) (logs : List LogRow) (q : String) : ℚ :=
  if columnsPresent then
    match (stabilityQueryRows logs q).head? with
    | some v => qMaxQ 0 (1 - readFloat v / 5)
    | none => 1
  else 1

/-- The absolute `rank_delta` values of a row set, NULLs dropped (as SQL `AVG`
drops them). -/
def absDeltas (rows : List LogRow) : List ℚ :=
  ((rows.map (·.rankDelta)).filterMap id).map (fun d => ((d.natAbs : ℚ)))

/-- Stability as the claim states it: average absolute `rank_delta` over at
most the **10 most recent** matching rows (`logs` listed most recent first);
`1` absent history.  Stated from the spec's words, for comparison with
`queryStability`. -/
def stabilitySpecTen (logs : List LogRow) (q : String) : ℚ :=
  let xs := absDeltas ((matchingRows logs q).take 10)
  if xs.isEmpty then 1 else qMaxQ 0 (1 - (xs.sum / xs.length) / 5)

/-- Stability as the code actually computes it when the columns exist:
average absolute `rank_delta` over **all** matching rows. -/
def stabilityAllRows (logs : List LogRow) (q : String) : ℚ :=
  let xs := absDeltas (matchingRows logs q)
  if xs.isEmpty then 1 else qMaxQ 0 (1 - (xs.sum / xs.length) / 5)

/-- C1: the schema reached from a fresh database lacks every stability column:
v15 adds only `mmr_decay`, and the `logRetrieval` INSERT therefore names four
columns (`latency_embed`, `mmr_penalty`, `is_exploration`, `rank_delta`) that
do not exist, so the insert fails and no retrieval-log row is appended. -/
theorem retrieval_log_schema_gap :
    freshSchema.retrievalLogs =
      ["id", "query", "semantic_rank", "keyword_rank", "final_rank",
       "latency_embedding", "latency_search", "latency_fusion", "latency_rerank",
       "top_score", "created_at", "mmr_decay"] ∧
    "mmr_penalty" ∉ freshSchema.retrievalLogs ∧
    "is_exploration" ∉ freshSchema.retrievalLogs ∧
    "rank_delta" ∉ freshSchema.retrievalLogs ∧
    "stability" ∉ freshSchema.retrievalLogs ∧
    insertOk freshSchema.retrievalLogs logRetrievalInsertColumns = false := by
  refine ⟨by decide, by decide, by decide, by decide, by decide, by decide⟩

/-- C2 counterexample: eleven non-exploration rows for the same query, the ten
most recent with `rank_delta = 0` and one older row with `rank_delta = 55`.
The claimed formula (ten most recent rows) yields stability `1`; the code's
SQL averages all eleven rows (`LIMIT 10` limits the single aggregate output
row) and yields `0`. -/
theorem stability_limit_cx :
    queryStability true
      (List.replicate 10 { query := "q", rankDelta := some 0 } ++
        [{ query := "q", rankDelta := some 55 }]) "q" = 0 ∧
    stabilitySpecTen
      (List.replicate 10 { query := "q", rankDelta := some 0 } ++
        [{ query := "q", rankDelta := some 55 }]) "q" = 1 ∧
    (0 : ℚ) ≠ 1 := by
  refine ⟨?_, ?_, by norm_num⟩
  · norm_num [queryStability, stabilityQueryRows, sqlAvgAbs, matchingRows, readFloat, qMaxQ,
      List.replicate, List.filter, List.filterMap_cons, List.filterMap_nil]
  · norm_num [stabilitySpecTen, matchingRows, absDeltas, qMaxQ, List.replicate, List.filter,
      List.filterMap_cons, List.filterMap_nil]

/-- C2 amended: when the stability columns exist, the computed stability is
`max 0 (1 − avg/5)` with the average taken over **all** matching rows (the
aggregate query returns exactly one row and `LIMIT 10` acts after
aggregation); with no matching history the aggregate is NULL, read as `0`,
giving stability `1`; and on the shipped schema the query fails and the
seed `1` is used. -/
theorem stability_all_rows_char (logs : List LogRow) (q : String) :
    queryStability true logs q = stabilityAllRows logs q ∧
    (stabilityQueryRows logs q).length = 1 ∧
    queryStability false logs q = 1 := by
  refine ⟨?_, rfl, rfl⟩
  unfold queryStability stabilityQueryRows stabilityAllRows sqlAvgAbs readFloat absDeltas
  by_cases h : ((((matchingRows logs q).map (·.rankDelta)).filterMap id).map
      (fun d => ((d.natAbs : ℚ)))).isEmpty
  · simp only [h, if_true, if_pos, List.take, List.head?, Option.getD]
    norm_num [qMaxQ]
  · simp only [h, if_false, if_neg, List.take, List.head?, Option.getD, Bool.false_eq_true,
      not_false_eq_true]
    rfl

/-! ## Store runtime state: chunks, full-text rows, metadata, logs

Models the mutable contents of the four tables, at the granularity the
verified properties need. -/

/-- One row of the `embeddings` table. -/
structure ChunkRow where
  id : Int := 0
  text : String := ""
  sourceFile : String := ""
  pageNum : Int := 0
  headingPath : String := ""
  headingLevel : Int := 0
  chunkType : String := "text"
  docId : String := ""
  sentenceCount : Int := 0
  listType : String := ""
  listLength : Int := 0
  createdAt : Int := 0
  boostFactor : ℚ := 1
  deriving Repr, DecidableEq

/-- Runtime contents of a workspace database. -/
structure VectorStoreState where
  chunks : List ChunkRow := []
  ftsRowids : List Int := []
  metadata : List (String × String) := []
  retrievalLogs : List LogRow := []
  nextId : Int := 1
  deriving Repr, DecidableEq

/-- The reserved metadata key of the dimension guardrail. -/
def dimKey : String := "embedding_dimension"

/-- `VectorStore::getMetadata`: the stored value, or `""` when absent. -/
def getMetadataS (s : VectorStoreState) (key : String) : String :=
  (((s.metadata.find? (fun kv => kv.1 = key)).map (·.2)).getD "")

/-- `VectorStore::setMetadata` (`INSERT OR REPLACE`). -/
def setMetadataS (s : VectorStoreState) (key value : String) : VectorStoreState :=
  { s with metadata := (s.metadata.filter (fun kv => kv.1 ≠ key)) ++ [(key, value)] }

/-- Decimal value of a digit character. -/
def digitVal? (c : Char) : Option Nat :=
  if '0' ≤ c ∧ c ≤ '9' then some (c.toNat - '0'.toNat) else none

/-- Accumulating decimal parse; any non-digit fails the whole parse. -/
def parseNatDigits : List Char → Nat → Option Nat
  | [], acc => some acc
  | c :: rest, acc =>
    match digitVal? c with
    | some d => parseNatDigits rest (acc * 10 + d)
    | none => none

/-- `QString::toInt`: optional leading minus then decimal digits; any parse
failure yields 0. -/
def qstringToInt (s : String) : Int :=
  match s.data with
  | [] => 0
  | '-' :: rest =>
    if rest = [] then 0 else
    match parseNatDigits rest 0 with
    | some n => -(n : Int)
    | none => 0
  | l =>
    match parseNatDigits l 0 with
    | some n => (n : Int)
    | none => 0

/-- `VectorStore::getRegisteredDimension`: `""` reads as `0`; otherwise
`QString::toInt`, which yields 0 on a parse failure. -/
def getRegisteredDimensionS (s : VectorStoreState) : Int :=
  let d := getMetadataS s dimKey
  if d = "" then 0 else qstringToInt d

/-- `VectorStore::addEntry` of the newest revision: inserts the chunk row,
registers the dimension if none is registered yet, then inserts the
full-text row for the same rowid (indexing `"[CONTEXT: <tokens>] <text>"`;
the indexed text is not modelled, only the row's existence). -/
def addEntryOp (s : VectorStoreState) (c : ChunkRow) (embLen : Nat) : VectorStoreState :=
  let assignedId := s.nextId
  let c' := { c with id := assignedId }
  let s1 := { s with chunks := s.chunks ++ [c'], nextId := assignedId + 1 }
  let s2 := if getRegisteredDimensionS s1 = 0 then setMetadataS s1 dimKey (toString embLen) else s1
  { s2 with ftsRowids := s2.ftsRowids ++ [assignedId] }

/-- `VectorStore::clear` of the newest revision: `DELETE FROM embeddings` and
the dimension metadata row — and nothing else; `embeddings_fts` is left
untouched. -/
def clearOp (s : VectorStoreState) : VectorStoreState :=
  { s with chunks := [],
           metadata := s.metadata.filter (fun kv => kv.1 ≠ dimKey) }

/-- The claimed invariant: a full-text row exists iff the chunk row exists. -/
def ftsChunkInvariant (s : VectorStoreState) : Prop :=
  ∀ i : Int, i ∈ s.ftsRowids ↔ i ∈ s.chunks.map (·.id)

/-- `VectorStore::boostEntry`:
`UPDATE embeddings SET boost_factor = boost_factor + :amount WHERE id = :id`. -/
def boostEntryOp (s : VectorStoreState) (entryId : Int) (amount : ℚ) : VectorStoreState :=
  { s with chunks := s.chunks.map (fun c =>
      if c.id = entryId then { c with boostFactor := c.boostFactor + amount } else c) }

/-- `VectorStore::addInteraction`: attempts to insert a retrieval-log row
naming the columns of `addInteractionInsertColumns` against the table produced
by the migrations (a failed `exec` leaves the table unchanged), then boosts
the entry by `0.1` iff the interaction is not an exploration click. -/
def addInteractionOp (s : VectorStoreState) (entryId : Int) (q : String)
    (isExplorationClick : Bool) : VectorStoreState :=
  let s1 := if insertOk freshSchema.retrievalLogs addInteractionInsertColumns then
      { s with retrievalLogs := s.retrievalLogs ++
          [{ query := "USER_CLICK: " ++ q, finalRank := entryId, topScore := 1,
             isExploration := isExplorationClick }] }
    else s
  if isExplorationClick = false then boostEntryOp s1 entryId (1/10) else s1

/-- C4 counterexample: insert one chunk into an empty workspace, then clear.
The chunk row is gone but its full-text row survives, so the biconditional
fails (the claim says workspace-clear removes both). -/
theorem clear_breaks_fts_invariant_cx :
    ¬ ftsChunkInvariant (clearOp (addEntryOp {} {} 3)) := by
  intro h
  have h1 := (h 1).mp
  simp [clearOp, addEntryOp, setMetadataS, getRegisteredDimensionS, getMetadataS] at h1

/-- C4 amended: insert-chunk extends the chunk table and the full-text index
with the same rowid, so it preserves the biconditional; workspace-clear
deletes the chunk rows but not the full-text rows, so it breaks the
biconditional on every non-empty store. -/
theorem addEntryOp_chunks (s : VectorStoreState) (c : ChunkRow) (n : Nat) :
    (addEntryOp s c n).chunks = s.chunks ++ [{ c with id := s.nextId }] := by
  simp only [addEntryOp, setMetadataS]
  split <;> rfl

theorem addEntryOp_ftsRowids (s : VectorStoreState) (c : ChunkRow) (n : Nat) :
    (addEntryOp s c n).ftsRowids = s.ftsRowids ++ [s.nextId] := by
  simp only [addEntryOp, setMetadataS]
  split <;> rfl

theorem fts_invariant_insert_only (s : VectorStoreState) (c : ChunkRow) (n : Nat)
    (hs : ftsChunkInvariant s) :
    ftsChunkInvariant (addEntryOp s c n) ∧
    (s.chunks ≠ [] → ¬ ftsChunkInvariant (clearOp s)) := by
  constructor
  · intro i
    simp only [addEntryOp_chunks, addEntryOp_ftsRowids, List.map_append, List.mem_append,
      List.map_cons, List.map_nil, List.mem_singleton]
    exact or_congr_left (hs i)
  · intro hne hclear
    match hm : s.chunks with
    | [] => exact hne hm
    | c0 :: rest =>
      have hin : c0.id ∈ s.ftsRowids := by
        rw [hs c0.id, hm]; simp
      have := (hclear c0.id).mp (by simpa [clearOp] using hin)
      simp [clearOp] at this

/-- C4 witness: the amended statement applied to the concrete one-chunk store. -/
theorem fts_invariant_insert_only_witness :
    ftsChunkInvariant (addEntryOp (addEntryOp {} {} 3) {} 3) ∧
    ((addEntryOp {} ({} : ChunkRow) 3).chunks ≠ [] →
      ¬ ftsChunkInvariant (clearOp (addEntryOp {} {} 3))) :=
  fts_invariant_insert_only (addEntryOp {} {} 3) {} 3 (by
    intro i
    simp [addEntryOp, setMetadataS, getRegisteredDimensionS, getMetadataS])

/-- C7: `addInteraction` appends no retrieval-log row — its INSERT names the
`is_exploration` column, which the migrated schema does not contain, so the
statement fails — while `boost_factor` is incremented by `0.1` exactly for
the clicked entry and exactly when the click is not an exploration click. -/
theorem addInteraction_quarantine (s : VectorStoreState) (entryId : Int) (q : String)
    (b : Bool) :
    (addInteractionOp s entryId q b).retrievalLogs = s.retrievalLogs ∧
    insertOk freshSchema.retrievalLogs addInteractionInsertColumns = false ∧
    (addInteractionOp s entryId q b).chunks = s.chunks.map (fun c =>
      if c.id = entryId ∧ b = false then { c with boostFactor := c.boostFactor + 1/10 }
      else c) := by
  have hcol : insertOk freshSchema.retrievalLogs addInteractionInsertColumns = false := by decide
  refine ⟨?_, hcol, ?_⟩
  · cases b <;> simp [addInteractionOp, hcol, boostEntryOp]
  · cases b <;> simp [addInteractionOp, hcol, boostEntryOp]

/-! ## Retrieval entries, intent, and hybrid fusion
(`VectorStore::hybridSearch`, `SearchOptions` overload) -/

/-- Intent tags of `detectIntent`. -/
inductive IntentType
  | General
  | Definition
  | Procedure
  | Summary
  | Example
  deriving Repr, DecidableEq

/-- The `VectorEntry` struct of `vector_store.h`, with the C++ field defaults.
`createdAt = none` models an invalid `QDateTime`. -/
structure VectorEntry where
  id : Int := 0
  text : String := ""
  sourceFile : String := ""
  docId : String := ""
  pageNum : Int := 0
  headingPath : String := ""
  headingLevel : Int := 0
  chunkType : String := ""
  sentenceCount : Int := 0
  listType : String := ""
  listLength : Int := 0
  embedding : List ℚ := []
  score : ℚ := 0
  semanticRank : Nat := 0
  keywordRank : Nat := 0
  createdAt : Option Int := none
  trustScore : ℚ := 1
  isExploration : Bool := false
  stabilityIndex : ℚ := 1
  deriving Repr, DecidableEq, Inhabited

/-- The `SearchOptions` struct of `vector_store.h` (fields the pipeline reads). -/
structure SearchOptions where
  limit : Nat := 5
  semanticThreshold : ℚ := 19/20
  experimentalMmr : Bool := false
  enableExploration : Bool := false
  deriving Repr, DecidableEq

/-- Intent/chunk-type boost of the dense fusion loop.  (The newest revision
keeps only the `Summary ∧ headingLevel == 1` hierarchy boost; the
`Definition ∧ headingLevel > 1` boost exists only in the legacy overload.) -/
def denseIntentBoost (intent : IntentType) (e : VectorEntry) : ℚ :=
  (if intent = IntentType.Definition ∧ e.chunkType = "definition" then (1 : ℚ)/2
   else if intent = IntentType.Summary ∧ e.chunkType = "summary" then 1/2
   else if intent = IntentType.Procedure ∧ e.chunkType = "list" then 3/10
   else if intent = IntentType.Example ∧ e.chunkType = "example" then 2/5
   else 0) +
  (if intent = IntentType.Summary ∧ e.headingLevel = 1 then (1 : ℚ)/5 else 0)

/-- Last occurrence `(index, entry)` of `id` in a suffix starting at index `i`:
the value left in a QMap slot by a loop that assigns on every matching index. -/
def lastOccurrenceFrom (targetId : Int) : Nat → List VectorEntry → Option (Nat × VectorEntry)
  | _, [] => none
  | i, e :: rest =>
    match lastOccurrenceFrom targetId (i + 1) rest with
    | some r => some r
    | none => if e.id = targetId then some (i, e) else none

/-- `rrfScores[id] += weightKeyword * (1.0 / (K + i + 1))` accumulated over
every index `i` of the keyword loop at which `keywordRes[i].id == id`
(`K = 60`). -/
def keywordRrfSumFrom (wK : ℚ) (targetId : Int) : Nat → List VectorEntry → ℚ
  | _, [] => 0
  | i, e :: rest =>
    (if e.id = targetId then wK * (1 / (60 + (i : ℚ) + 1)) else 0) +
      keywordRrfSumFrom wK targetId (i + 1) rest

/-- Value left in `rrfScores[id]` by the semantic loop: assignment of
`weightSemantic / (K + i + 1)` plus the intent boost, at the last matching
index (assignments overwrite). -/
def semanticContribution (intent : IntentType) (wS : ℚ) (sem : List VectorEntry)
    (targetId : Int) : ℚ :=
  match lastOccurrenceFrom targetId 0 sem with
  | some (j, e) => wS * (1 / (60 + (j : ℚ) + 1)) + denseIntentBoost intent e
  | none => 0

/-- Final `rrfScores[id]` after both fusion loops.  The keyword loop of the
`SearchOptions` overload adds no intent boost. -/
def fusedScore (intent : IntentType) (wS wK : ℚ) (sem kw : List VectorEntry)
    (targetId : Int) : ℚ :=
  semanticContribution intent wS sem targetId + keywordRrfSumFrom wK targetId 0 kw

/-- `semanticRanks.value(id, 0)` / `keywordRanks.value(id, 0)`. -/
def rankOf (l : List VectorEntry) (targetId : Int) : Nat :=
  match lastOccurrenceFrom targetId 0 l with
  | some (j, _) => j + 1
  | none => 0

/-- Value left in `entryMap[id]`: the last semantic occurrence (the semantic
loop assigns unconditionally), else the first keyword occurrence (the keyword
loop inserts only when absent). -/
def entryFor (sem kw : List VectorEntry) (targetId : Int) : VectorEntry :=
  match lastOccurrenceFrom targetId 0 sem with
  | some (_, e) => e
  | none => (kw.find? (fun e => e.id = targetId)).getD default

/-- Ascending insertion (QMap iterates its keys in ascending order). -/
def insertAscending (x : Int) : List Int → List Int
  | [] => [x]
  | y :: ys => if x ≤ y then x :: y :: ys else y :: insertAscending x ys

/-- Ascending insertion sort over key lists. -/
def sortedKeys (l : List Int) : List Int := l.foldr insertAscending []

/-- The key set of `rrfScores`, iterated in ascending order. -/
def fusedKeys (sem kw : List VectorEntry) : List Int :=
  sortedKeys (((sem ++ kw).map (·.id)).dedup)

/-- The `finalResults` list right after the two fusion loops. -/
def fuseResults (intent : IntentType) (wS wK : ℚ) (sem kw : List VectorEntry) :
    List VectorEntry :=
  (fusedKeys sem kw).map (fun targetId =>
    { entryFor sem kw targetId with
        score := fusedScore intent wS wK sem kw targetId,
        semanticRank := rankOf sem targetId,
        keywordRank := rankOf kw targetId })

/-- Phase 4.4 intent-weighted stability multiplier. -/
def stabilityMultiplier (intent : IntentType) : ℚ :=
  if intent = IntentType.Definition then 2
  else if intent = IntentType.Procedure then 3/2
  else if intent = IntentType.Summary then 1
  else 1/2

/-- Phase 4.4 bias: set each entry's stability index and add
`stability * multiplier * 0.1` to its score. -/
def applyStabilityBias (queryStab : ℚ) (intent : IntentType) (l : List VectorEntry) :
    List VectorEntry :=
  l.map (fun e => { e with
    stabilityIndex := queryStab,
    score := e.score + queryStab * stabilityMultiplier intent * (1/10) })

/-- Descending insertion by score (`std::sort` with `a.score > b.score`). -/
def insertDescByScore (e : VectorEntry) : List VectorEntry → List VectorEntry
  | [] => [e]
  | y :: ys => if y.score < e.score then e :: y :: ys else y :: insertDescByScore e ys

/-- Sort by fused score, descending. -/
def sortByScoreDesc (l : List VectorEntry) : List VectorEntry :=
  l.foldr insertDescByScore []

/-- Multi-tier MMR diversity penalty (Phase 4.1). -/
def mmrPenalty (avgDocEntropy : ℚ) (docs paths : List String) (c : VectorEntry) : ℚ :=
  (if c.docId ∈ docs then (3/20) * (11/10 - avgDocEntropy) else 0) +
  (if c.headingPath ∈ paths then 1/10 else 0)

/-- The inner argmax of the MMR loop: `bestIdx = -1`, `bestMmrScore = -1e9`,
strict improvement only; returns the best index with its penalty. -/
def mmrBestFrom (lam avgE : ℚ) (docs paths : List String) :
    Nat → ℚ → Option (Nat × ℚ) → List VectorEntry → Option (Nat × ℚ)
  | _, _, best, [] => best
  | i, bestScore, best, c :: rest =>
    let pen := mmrPenalty avgE docs paths c
    let s := lam * c.score - (1 - lam) * pen
    if bestScore < s then mmrBestFrom lam avgE docs paths (i + 1) s (some (i, pen)) rest
    else mmrBestFrom lam avgE docs paths (i + 1) bestScore best rest

/-- The greedy MMR selection loop; `fuel` bounds the iterations (each
iteration removes one candidate, so `cands.length` fuel is exact). -/
def mmrSelect (lam avgE : ℚ) (limit : Nat) :
    Nat → List VectorEntry → List String → List String → List VectorEntry → ℚ →
    List VectorEntry × ℚ
  | 0, selected, _, _, _, pen => (selected, pen)
  | fuel + 1, selected, docs, paths, cands, pen =>
    if selected.length < limit ∧ cands ≠ [] then
      match mmrBestFrom lam avgE docs paths 0 (-(10 ^ 9 : ℚ)) none cands with
      | none => (selected, pen)
      | some (i, p) =>
        let sel := cands.getD i default
        mmrSelect lam avgE limit fuel (selected ++ [sel]) (docs ++ [sel.docId])
          (paths ++ [sel.headingPath]) (cands.eraseIdx i) (pen + p)
    else (selected, pen)

/-- Phase 4.1 adaptive MMR, applied when enabled and more than one result;
`lam` and `avgE` stand for the sigmoid lambda and the EMA-smoothed document
entropy, whose values are computed with `qExp`/`qLn` upstream. -/
def applyMmr (opts : SearchOptions) (lam avgE : ℚ) (l : List VectorEntry) :
    List VectorEntry × ℚ :=
  if opts.experimentalMmr ∧ 1 < l.length then
    match l with
    | [] => ([], 0)
    | top :: rest =>
      mmrSelect lam avgE opts.limit rest.length [top] [top.docId] [top.headingPath] rest 0
  else (l, 0)

/-- Phase 4.3 budgeted exploration: behind the stability gate and outside
Definition/Procedure intents, the first dense candidate beyond position
`limit` with `trustScore ≤ 1` and cosine score `> 0.65` is marked and
inserted at position 2 with score `top * 0.95`. -/
def applyExploration (opts : SearchOptions) (intent : IntentType) (queryStab : ℚ)
    (semanticRes : List VectorEntry) (l : List VectorEntry) : List VectorEntry :=
  if opts.enableExploration ∧ (3/5 : ℚ) ≤ queryStab ∧ l ≠ [] ∧
      intent ≠ IntentType.Definition ∧ intent ≠ IntentType.Procedure then
    match (semanticRes.drop opts.limit).find?
        (fun c => c.trustScore ≤ 1 ∧ (13/20 : ℚ) < c.score) with
    | some c =>
      let c' := { c with isExploration := true, score := (l.headD default).score * (19/20) }
      l.take 1 ++ [c'] ++ l.drop 1
    | none => l
  else l

/-- The post-retrieval pipeline of the `SearchOptions` overload of
`hybridSearch`: fusion loops, stability bias, sort, optional MMR, optional
exploration insertion, truncation to `limit`.  `semanticRes` and `keywordRes`
are the two retrieval lists; `queryStab` is the Phase 4.4 stability value. -/
def hybridPipeline (opts : SearchOptions) (intent : IntentType)
    (wS wK lam avgE queryStab : ℚ) (semanticRes keywordRes : List VectorEntry) :
    List VectorEntry :=
  let fused := fuseResults intent wS wK semanticRes keywordRes
  let biased := applyStabilityBias queryStab intent fused
  let sorted := sortByScoreDesc biased
  let afterMmr := (applyMmr opts lam avgE sorted).1
  let explored := applyExploration opts intent queryStab semanticRes afterMmr
  explored.take opts.limit

/-! ## The parallel sparse-retrieval path's row handling -/

/-- An SQL value as surfaced through `QSqlQuery::value`. -/
inductive SqlValue
  | vNull
  | vInt (v : Int)
  | vReal (v : ℚ)
  | vText (v : String)
  deriving Repr, DecidableEq

/-- `QVariant::toFloat`: 0 for NULL or text. -/
def SqlValue.toFloatV : SqlValue → ℚ
  | .vReal v => v
  | .vInt v => (v : ℚ)
  | _ => 0

/-- `QVariant::toInt`. -/
def SqlValue.toIntV : SqlValue → Int
  | .vInt v => v
  | _ => 0

/-- `QVariant::toString`. -/
def SqlValue.toStringV : SqlValue → String
  | .vText v => v
  | _ => ""

/-- `QVariant::toDateTime`: NULL gives an invalid `QDateTime` (`none`). -/
def SqlValue.toDateTimeV : SqlValue → Option Int
  | .vInt v => some v
  | _ => none

/-- `QSqlQuery::value(i)`: out-of-range column indices give a null variant. -/
def rowValue (row : List SqlValue) (i : Nat) : SqlValue := row.getD i SqlValue.vNull

/-- The 11 columns of the SELECT in `hybridSearch`'s parallel FTS thread. -/
def ftsSelectColumns : List String :=
  ["id", "text_chunk", "source_file", "page_num", "heading_path", "heading_level",
   "chunk_type", "doc_id", "sentence_count", "list_type", "list_length"]

/-- The row a chunk produces under that SELECT list: exactly the 11 listed
values, in order. -/
def mkFtsRow (c : ChunkRow) : List SqlValue :=
  [SqlValue.vInt c.id, SqlValue.vText c.text, SqlValue.vText c.sourceFile,
   SqlValue.vInt c.pageNum, SqlValue.vText c.headingPath, SqlValue.vInt c.headingLevel,
   SqlValue.vText c.chunkType, SqlValue.vText c.docId, SqlValue.vInt c.sentenceCount,
   SqlValue.vText c.listType, SqlValue.vInt c.listLength]

/-- `QDateTime::secsTo`: 0 when either datetime is invalid. -/
def secsToNow : Option Int → Int → Int
  | some t, now => now - t
  | none, _ => 0

/-- `qMax(0.5f, 1.0f - secsAgo / (3600*24*30))`: linear 30-day decay to 0.5. -/
def recencyFactor (secsAgo : Int) : ℚ :=
  qMaxQ (1/2) (1 - (secsAgo : ℚ) / (3600 * 24 * 30))

/-- The row-reading loop of the parallel FTS thread: fields from positions
0–10, `createdAt` from position 11 and `boost_factor` from position 12 —
one and two past the end of the SELECT list. -/
def parseFtsThreadRow (now : Int) (row : List SqlValue) : VectorEntry :=
  let createdAt := (rowValue row 11).toDateTimeV
  let boost := (rowValue row 12).toFloatV
  let secsAgo := secsToNow createdAt now
  { id := (rowValue row 0).toIntV,
    text := (rowValue row 1).toStringV,
    sourceFile := (rowValue row 2).toStringV,
    pageNum := (rowValue row 3).toIntV,
    headingPath := (rowValue row 4).toStringV,
    headingLevel := (rowValue row 5).toIntV,
    chunkType := (rowValue row 6).toStringV,
    docId := (rowValue row 7).toStringV,
    sentenceCount := (rowValue row 8).toIntV,
    listType := (rowValue row 9).toStringV,
    listLength := (rowValue row 10).toIntV,
    createdAt := createdAt,
    trustScore := boost * recencyFactor secsAgo }

/-! ## Fusion and pipeline lemmas -/

theorem lastOccurrenceFrom_eq_none {tid : Int} :
    ∀ (l : List VectorEntry) (i : Nat),
      lastOccurrenceFrom tid i l = none ↔ ∀ e ∈ l, e.id ≠ tid := by
  intro l
  induction l with
  | nil => intro i; simp [lastOccurrenceFrom]
  | cons e rest ih =>
    intro i
    simp only [lastOccurrenceFrom]
    constructor
    · intro h x hx
      rcases List.mem_cons.mp hx with hx | hx
      · subst hx
        rcases hrest : lastOccurrenceFrom tid (i + 1) rest with _ | r
        · rw [hrest] at h
          simp only at h
          intro hid
          rw [if_pos hid] at h
          exact Option.noConfusion h
        · rw [hrest] at h; exact Option.noConfusion h
      · rcases hrest : lastOccurrenceFrom tid (i + 1) rest with _ | r
        · exact ((ih (i + 1)).mp hrest) x hx
        · rw [hrest] at h; exact Option.noConfusion h
    · intro h
      have hrest : lastOccurrenceFrom tid (i + 1) rest = none :=
        (ih (i + 1)).mpr (fun x hx => h x (List.mem_cons_of_mem _ hx))
      rw [hrest]
      simp only
      rw [if_neg (h e (List.mem_cons_self e rest))]

theorem lastOccurrenceFrom_mem {tid : Int} :
    ∀ (l : List VectorEntry) (i j : Nat) (e : VectorEntry),
      lastOccurrenceFrom tid i l = some (j, e) → e ∈ l ∧ e.id = tid := by
  intro l
  induction l with
  | nil => intro i j e h; exact Option.noConfusion h
  | cons x rest ih =>
    intro i j e h
    simp only [lastOccurrenceFrom] at h
    rcases hrest : lastOccurrenceFrom tid (i + 1) rest with _ | r
    · rw [hrest] at h
      simp only at h
      by_cases hid : x.id = tid
      · rw [if_pos hid] at h
        cases h
        exact ⟨List.mem_cons_self _ _, hid⟩
      · rw [if_neg hid] at h; exact Option.noConfusion h
    · rw [hrest] at h
      cases h
      obtain ⟨hm, hid⟩ := ih (i + 1) j e hrest
      exact ⟨List.mem_cons_of_mem _ hm, hid⟩

theorem keywordRrfSumFrom_eq_zero {tid : Int} {wK : ℚ} :
    ∀ (l : List VectorEntry) (i : Nat), (∀ e ∈ l, e.id ≠ tid) →
      keywordRrfSumFrom wK tid i l = 0 := by
  intro l
  induction l with
  | nil => intro i _; rfl
  | cons e rest ih =>
    intro i h
    simp only [keywordRrfSumFrom]
    rw [if_neg (h e (List.mem_cons_self e rest)),
      ih (i + 1) (fun x hx => h x (List.mem_cons_of_mem _ hx))]
    ring

theorem nodup_head_not_in_tail {x : VectorEntry} {rest : List VectorEntry}
    (hnd : ((x :: rest).map (·.id)).Nodup) : ∀ e ∈ rest, e.id ≠ x.id := by
  intro e he hid
  simp only [List.map_cons, List.nodup_cons] at hnd
  exact hnd.1 (hid ▸ List.mem_map_of_mem (·.id) he)

theorem keywordRrfSumFrom_single {tid : Int} {wK : ℚ} :
    ∀ (l : List VectorEntry) (i k : Nat) (hk : k < l.length),
      (l.map (·.id)).Nodup → (l.get ⟨k, hk⟩).id = tid →
      keywordRrfSumFrom wK tid i l = wK * (1 / (60 + ((i + k : Nat) : ℚ) + 1)) := by
  intro l
  induction l with
  | nil => intro i k hk; exact absurd hk (by simp)
  | cons x rest ih =>
    intro i k hk hnd hid
    match k with
    | 0 =>
      simp only [List.get] at hid
      simp only [keywordRrfSumFrom, if_pos hid]
      have hz : keywordRrfSumFrom wK tid (i + 1) rest = 0 := by
        refine keywordRrfSumFrom_eq_zero rest (i + 1) (fun e he hc => ?_)
        exact (nodup_head_not_in_tail hnd) e he (hc.trans hid.symm)
      rw [hz]
      norm_num
    | k' + 1 =>
      simp only [List.get] at hid
      have hk' : k' < rest.length := Nat.lt_of_succ_lt_succ hk
      have hhd : ¬ x.id = tid := by
        intro hx
        have hmem : rest.get ⟨k', hk'⟩ ∈ rest := List.get_mem rest k' hk'
        exact (nodup_head_not_in_tail hnd) _ hmem (hid.trans hx.symm)
      simp only [keywordRrfSumFrom, if_neg hhd]
      have := ih (i + 1) k' hk' (by
        simp only [List.map_cons, List.nodup_cons] at hnd
        exact hnd.2) hid
      rw [this]
      have harith : i + 1 + k' = i + (k' + 1) := by omega
      rw [harith]
      ring

theorem lastOccurrenceFrom_single {tid : Int} :
    ∀ (l : List VectorEntry) (i k : Nat) (hk : k < l.length),
      (l.map (·.id)).Nodup → (l.get ⟨k, hk⟩).id = tid →
      lastOccurrenceFrom tid i l = some (i + k, l.get ⟨k, hk⟩) := by
  intro l
  induction l with
  | nil => intro i k hk; exact absurd hk (by simp)
  | cons x rest ih =>
    intro i k hk hnd hid
    match k with
    | 0 =>
      simp only [List.get] at hid ⊢
      have hrest : lastOccurrenceFrom tid (i + 1) rest = none := by
        refine (lastOccurrenceFrom_eq_none rest (i + 1)).mpr (fun e he hc => ?_)
        exact (nodup_head_not_in_tail hnd) e he (hc.trans hid.symm)
      simp only [lastOccurrenceFrom, hrest, if_pos hid, Nat.add_zero]
    | k' + 1 =>
      have hk' : k' < rest.length := Nat.lt_of_succ_lt_succ hk
      simp only [List.get] at hid ⊢
      have := ih (i + 1) k' hk' (by
        simp only [List.map_cons, List.nodup_cons] at hnd
        exact hnd.2) hid
      simp only [lastOccurrenceFrom, this]
      have harith : i + 1 + k' = i + (k' + 1) := by omega
      rw [harith]

theorem mem_insertAscending {x y : Int} :
    ∀ (l : List Int), y ∈ insertAscending x l ↔ y = x ∨ y ∈ l := by
  intro l
  induction l with
  | nil => simp [insertAscending]
  | cons z rest ih =>
    simp only [insertAscending]
    by_cases h : x ≤ z
    · simp [if_pos h]
    · rw [if_neg h]
      simp only [List.mem_cons, ih]
      tauto

theorem mem_sortedKeys {x : Int} :
    ∀ (l : List Int), x ∈ sortedKeys l ↔ x ∈ l := by
  intro l
  induction l with
  | nil => simp [sortedKeys]
  | cons z rest ih =>
    simp only [sortedKeys, List.foldr] at ih ⊢
    rw [mem_insertAscending, ih, List.mem_cons]

theorem mem_fusedKeys {sem kw : List VectorEntry} {tid : Int} :
    tid ∈ fusedKeys sem kw ↔ (∃ e ∈ sem, e.id = tid) ∨ (∃ e ∈ kw, e.id = tid) := by
  unfold fusedKeys
  rw [mem_sortedKeys, List.mem_dedup, List.map_append, List.mem_append]
  simp only [List.mem_map]

theorem entryFor_of_not_sem {sem kw : List VectorEntry} {tid : Int}
    (hns : ∀ e ∈ sem, e.id ≠ tid) (hkw : ∃ e ∈ kw, e.id = tid) :
    ∃ k ∈ kw, k.id = tid ∧ entryFor sem kw tid = k := by
  have hnone : lastOccurrenceFrom tid 0 sem = none :=
    (lastOccurrenceFrom_eq_none sem 0).mpr hns
  rcases hf : kw.find? (fun e => e.id = tid) with _ | k
  · exfalso
    obtain ⟨e, he, hid⟩ := hkw
    have := List.find?_eq_none.mp hf e he
    simp [hid] at this
  · refine ⟨k, List.mem_of_find?_eq_some hf, by simpa using List.find?_some hf, ?_⟩
    unfold entryFor
    rw [hnone]
    show (kw.find? (fun e => e.id = tid)).getD default = k
    rw [hf]
    rfl

theorem entryFor_id {sem kw : List VectorEntry} {tid : Int}
    (h : tid ∈ fusedKeys sem kw) : (entryFor sem kw tid).id = tid := by
  rcases hl : lastOccurrenceFrom tid 0 sem with _ | ⟨j, e⟩
  · have hns := (lastOccurrenceFrom_eq_none sem 0).mp hl
    have hkw : ∃ e ∈ kw, e.id = tid := by
      rcases mem_fusedKeys.mp h with hs | hk
      · obtain ⟨e, he, hid⟩ := hs; exact absurd hid (hns e he)
      · exact hk
    obtain ⟨k, _, hid, heq⟩ := entryFor_of_not_sem hns hkw
    rw [heq]
    exact hid
  · have heq : entryFor sem kw tid = e := by
      unfold entryFor
      rw [hl]
    rw [heq]
    exact (lastOccurrenceFrom_mem sem 0 j e hl).2

theorem fuse_trust_of_sparse_only {intent : IntentType} {wS wK : ℚ}
    {sem kw : List VectorEntry} {e : VectorEntry}
    (he : e ∈ fuseResults intent wS wK sem kw)
    (hid : ∀ x ∈ sem, x.id ≠ e.id) :
    ∃ k ∈ kw, k.id = e.id ∧ e.trustScore = k.trustScore := by
  obtain ⟨tid, htid, heq⟩ := List.mem_map.mp he
  have hide : e.id = tid := by rw [← heq]; exact entryFor_id htid
  subst heq
  have hns : ∀ x ∈ sem, x.id ≠ tid := by
    intro x hx
    exact hide ▸ hid x hx
  have hkw : ∃ x ∈ kw, x.id = tid := by
    rcases mem_fusedKeys.mp htid with hs | hk
    · obtain ⟨x, hx, hxid⟩ := hs; exact absurd hxid (hns x hx)
    · exact hk
  obtain ⟨k, hkmem, hkid, hk⟩ := entryFor_of_not_sem hns hkw
  exact ⟨k, hkmem, by rw [hkid, hide], by rw [hk]⟩

theorem mem_applyStabilityBias {qs : ℚ} {intent : IntentType} {l : List VectorEntry}
    {e : VectorEntry} (h : e ∈ applyStabilityBias qs intent l) :
    ∃ e0 ∈ l, e.id = e0.id ∧ e.trustScore = e0.trustScore := by
  obtain ⟨e0, he0, heq⟩ := List.mem_map.mp h
  exact ⟨e0, he0, by rw [← heq], by rw [← heq]⟩

theorem mem_insertDescByScore {e x : VectorEntry} :
    ∀ (l : List VectorEntry), x ∈ insertDescByScore e l ↔ x = e ∨ x ∈ l := by
  intro l
  induction l with
  | nil => simp [insertDescByScore]
  | cons z rest ih =>
    simp only [insertDescByScore]
    by_cases h : z.score < e.score
    · simp [if_pos h]
    · rw [if_neg h]
      simp only [List.mem_cons, ih]
      tauto

theorem mem_sortByScoreDesc {x : VectorEntry} :
    ∀ (l : List VectorEntry), x ∈ sortByScoreDesc l ↔ x ∈ l := by
  intro l
  induction l with
  | nil => simp [sortByScoreDesc]
  | cons z rest ih =>
    simp only [sortByScoreDesc, List.foldr] at ih ⊢
    rw [mem_insertDescByScore, ih, List.mem_cons]

theorem mmrBestFrom_lt {lam avgE : ℚ} {docs paths : List String} :
    ∀ (l : List VectorEntry) (i : Nat) (s0 : ℚ) (b : Option (Nat × ℚ)),
      (∀ j p, b = some (j, p) → j < i) →
      ∀ j p, mmrBestFrom lam avgE docs paths i s0 b l = some (j, p) → j < i + l.length := by
  intro l
  induction l with
  | nil =>
    intro i s0 b hb j p h
    simp only [mmrBestFrom] at h
    exact Nat.lt_of_lt_of_le (hb j p h) (by omega)
  | cons c rest ih =>
    intro i s0 b hb j p h
    simp only [mmrBestFrom] at h
    by_cases hcmp : s0 < lam * c.score - (1 - lam) * mmrPenalty avgE docs paths c
    · rw [if_pos hcmp] at h
      have := ih (i + 1) _ _ (by
        intro j' p' hj'
        cases hj'
        omega) j p h
      simpa [Nat.add_comm, Nat.add_assoc, Nat.add_left_comm] using this
    · rw [if_neg hcmp] at h
      have := ih (i + 1) s0 b (fun j' p' hj' => Nat.lt_succ_of_lt (hb j' p' hj')) j p h
      simpa [Nat.add_comm, Nat.add_assoc, Nat.add_left_comm] using this

theorem mem_mmrSelect {lam avgE : ℚ} {limit : Nat} :
    ∀ (fuel : Nat) (selected : List VectorEntry) (docs paths : List String)
      (cands : List VectorEntry) (pen : ℚ) (x : VectorEntry),
      x ∈ (mmrSelect lam avgE limit fuel selected docs paths cands pen).1 →
      x ∈ selected ∨ x ∈ cands := by
  intro fuel
  induction fuel with
  | zero => intro selected docs paths cands pen x h; exact Or.inl h
  | succ n ih =>
    intro selected docs paths cands pen x h
    simp only [mmrSelect] at h
    by_cases hcond : selected.length < limit ∧ cands ≠ []
    · rw [if_pos hcond] at h
      rcases hbest : mmrBestFrom lam avgE docs paths 0 (-(10 ^ 9 : ℚ)) none cands with _ | ip
      · rw [hbest] at h; exact Or.inl h
      · obtain ⟨i, p⟩ := ip
        rw [hbest] at h
        simp only at h
        have hlt : i < cands.length := by
          have := mmrBestFrom_lt cands 0 (-(10 ^ 9 : ℚ)) none
            (fun j p hj => Option.noConfusion hj) i p hbest
          omega
        have hsel : cands.getD i default ∈ cands := by
          rw [List.getD_eq_getElem cands default hlt]
          exact List.getElem_mem hlt
        rcases ih _ _ _ _ _ x h with hx | hx
        · rcases List.mem_append.mp hx with hx | hx
          · exact Or.inl hx
          · exact Or.inr (by
              have : x = cands.getD i default := List.mem_singleton.mp hx
              exact this ▸ hsel)
        · exact Or.inr (List.eraseIdx_subset cands i hx)
    · rw [if_neg hcond] at h
      exact Or.inl h

theorem mem_applyMmr {opts : SearchOptions} {lam avgE : ℚ} {l : List VectorEntry}
    {x : VectorEntry} (h : x ∈ (applyMmr opts lam avgE l).1) : x ∈ l := by
  unfold applyMmr at h
  by_cases hc : opts.experimentalMmr ∧ 1 < l.length
  · rw [if_pos hc] at h
    match l, h with
    | top :: rest, h =>
      rcases mem_mmrSelect _ _ _ _ _ _ _ h with hx | hx
      · exact List.mem_singleton.mp hx ▸ List.mem_cons_self _ _
      · exact List.mem_cons_of_mem _ hx
  · rw [if_neg hc] at h
    exact h

theorem mem_applyExploration {opts : SearchOptions} {intent : IntentType} {qs : ℚ}
    {semRes l : List VectorEntry} {x : VectorEntry}
    (h : x ∈ applyExploration opts intent qs semRes l) :
    x ∈ l ∨ ∃ c ∈ semRes, x.id = c.id := by
  unfold applyExploration at h
  by_cases hc : opts.enableExploration ∧ (3/5 : ℚ) ≤ qs ∧ l ≠ [] ∧
      intent ≠ IntentType.Definition ∧ intent ≠ IntentType.Procedure
  · rw [if_pos hc] at h
    rcases hf : (semRes.drop opts.limit).find?
        (fun c => c.trustScore ≤ 1 ∧ (13/20 : ℚ) < c.score) with _ | c
    · rw [hf] at h; exact Or.inl h
    · rw [hf] at h
      simp only [List.mem_append] at h
      rcases h with (h | h) | h
      · exact Or.inl (List.take_subset _ _ h)
      · refine Or.inr ⟨c, List.drop_subset _ _ (List.mem_of_find?_eq_some hf), ?_⟩
        rw [List.mem_singleton.mp h]
      · exact Or.inl (List.drop_subset _ _ h)
  · rw [if_neg hc] at h
    exact Or.inl h

theorem hybridPipeline_sparse_trust {opts : SearchOptions} {intent : IntentType}
    {wS wK lam avgE qs : ℚ} {semRes kwRes : List VectorEntry} {e : VectorEntry}
    (hkw : ∀ k ∈ kwRes, k.trustScore = 0)
    (he : e ∈ hybridPipeline opts intent wS wK lam avgE qs semRes kwRes)
    (hid : e.id ∉ semRes.map (·.id)) : e.trustScore = 0 := by
  unfold hybridPipeline at he
  have he1 := List.take_subset _ _ he
  rcases mem_applyExploration he1 with he2 | ⟨c, hc, hcid⟩
  · have he3 := mem_applyMmr he2
    have he4 := (mem_sortByScoreDesc _).mp he3
    obtain ⟨e0, he0, hide, htruste⟩ := mem_applyStabilityBias he4
    have hns : ∀ x ∈ semRes, x.id ≠ e0.id := by
      intro x hx hxid
      exact hid (hide ▸ hxid ▸ List.mem_map_of_mem (·.id) hx)
    obtain ⟨k, hkm, _, htr⟩ := fuse_trust_of_sparse_only he0 hns
    rw [htruste, htr]
    exact hkw k hkm
  · exact absurd (hcid ▸ List.mem_map_of_mem (·.id) hc) hid

/-- C3 amended: in the `SearchOptions` overload's fusion, a chunk that appears
only in the sparse (keyword) list receives exactly
`weightKeyword / (K + rank)` — no `+0.3` chunk-type boost is added on the
sparse side for any intent (the `+0.3` boosts exist only in the legacy
`limit`-overload of `hybridSearch`, which the header does not declare). -/
theorem sparse_fusion_no_boost (intent : IntentType) (wS wK : ℚ)
    (sem kw : List VectorEntry) (k : Nat) (hk : k < kw.length)
    (hns : (kw.get ⟨k, hk⟩).id ∉ sem.map (·.id))
    (hnd : (kw.map (·.id)).Nodup) :
    ∃ r ∈ fuseResults intent wS wK sem kw,
      r.id = (kw.get ⟨k, hk⟩).id ∧ r.semanticRank = 0 ∧ r.keywordRank = k + 1 ∧
      r.score = wK * (1 / (60 + (k : ℚ) + 1)) := by
  have hns' : ∀ x ∈ sem, x.id ≠ (kw.get ⟨k, hk⟩).id := by
    intro x hx hxid
    exact hns (hxid ▸ List.mem_map_of_mem (·.id) hx)
  have hkmem : (kw.get ⟨k, hk⟩).id ∈ fusedKeys sem kw :=
    mem_fusedKeys.mpr (Or.inr ⟨kw.get ⟨k, hk⟩, List.get_mem kw k hk, rfl⟩)
  refine ⟨_, List.mem_map_of_mem _ hkmem, ?_, ?_, ?_, ?_⟩
  · exact entryFor_id hkmem
  · show rankOf sem (kw.get ⟨k, hk⟩).id = 0
    unfold rankOf
    rw [(lastOccurrenceFrom_eq_none sem 0).mpr hns']
  · show rankOf kw (kw.get ⟨k, hk⟩).id = k + 1
    unfold rankOf
    rw [lastOccurrenceFrom_single kw 0 k hk hnd rfl]
    simp
  · show fusedScore intent wS wK sem kw (kw.get ⟨k, hk⟩).id = wK * (1 / (60 + (k : ℚ) + 1))
    unfold fusedScore semanticContribution
    rw [(lastOccurrenceFrom_eq_none sem 0).mpr hns',
      keywordRrfSumFrom_single kw 0 k hk hnd rfl]
    simp

/-- The sparse-retrieved definition chunk of the C3 counterexample. -/
def defChunkEntry : VectorEntry := { id := 1, chunkType := "definition" }

/-- C3 counterexample: intent `Definition` (fusion weights 0.35 semantic /
0.65 keyword), one sparse result whose chunk type is "definition", no dense
results: the fused score is exactly `0.65 · 1/61`, and that value differs from
the `0.65 · 1/61 + 0.3` the claimed sparse-side boost would produce. -/
theorem sparse_boost_cx :
    (fuseResults IntentType.Definition (7/20) (13/20) [] [defChunkEntry]).map (·.score)
      = [13/20 * (1 / 61)] ∧
    (13/20 * (1 / 61) : ℚ) ≠ 13/20 * (1 / 61) + 3/10 := by
  constructor
  · norm_num [fuseResults, fusedKeys, sortedKeys, insertAscending, entryFor, fusedScore,
      semanticContribution, keywordRrfSumFrom, lastOccurrenceFrom, rankOf, defChunkEntry,
      List.dedup_cons_of_not_mem, List.find?]
  · norm_num

/-- C3 witness: the amended statement applied at the concrete counterexample
input. -/
theorem sparse_fusion_no_boost_witness :
    ∃ r ∈ fuseResults IntentType.Definition (7/20) (13/20) [] [defChunkEntry],
      r.id = ([defChunkEntry].get ⟨0, by norm_num⟩).id ∧ r.semanticRank = 0 ∧
      r.keywordRank = 0 + 1 ∧ r.score = 13/20 * (1 / (60 + ((0 : Nat) : ℚ) + 1)) :=
  sparse_fusion_no_boost IntentType.Definition (7/20) (13/20) [] [defChunkEntry] 0
    (by norm_num) (by simp) (by simp)

/-- C10: the parallel FTS thread's SELECT list has exactly 11 columns
(positions 0–10), the row loop reads `created_at` and `boost_factor` from
positions 11 and 12 — past the end, yielding null variants, so `boost` reads
as 0 and `trustScore = boost · recency = 0` — and consequently every entry the
pipeline returns for a chunk present only in the sparse list carries
`trustScore = 0`. -/
theorem fts_sparse_only_trust_zero :
    ftsSelectColumns.length = 11 ∧
    (∀ (now : Int) (c : ChunkRow), (parseFtsThreadRow now (mkFtsRow c)).trustScore = 0) ∧
    (∀ (opts : SearchOptions) (intent : IntentType) (wS wK lam avgE qs : ℚ)
       (semRes : List VectorEntry) (now : Int) (chunks : List ChunkRow)
       (e : VectorEntry),
      e ∈ hybridPipeline opts intent wS wK lam avgE qs semRes
            (chunks.map (fun c => parseFtsThreadRow now (mkFtsRow c))) →
      e.id ∉ semRes.map (·.id) → e.trustScore = 0) := by
  have htrust : ∀ (now : Int) (c : ChunkRow),
      (parseFtsThreadRow now (mkFtsRow c)).trustScore = 0 := by
    intro now c
    simp [parseFtsThreadRow, mkFtsRow, rowValue, SqlValue.toFloatV, List.getD]
  refine ⟨rfl, htrust, ?_⟩
  intro opts intent wS wK lam avgE qs semRes now chunks e he hid
  refine hybridPipeline_sparse_trust ?_ he hid
  intro k hk
  obtain ⟨c, _, rfl⟩ := List.mem_map.mp hk
  exact htrust now c

/-- The single sparse entry of the C10 witness. -/
def c10kw : VectorEntry := parseFtsThreadRow 0 (mkFtsRow {})

/-- The entry the pipeline returns for it in the witness configuration. -/
def c10res : VectorEntry :=
  { c10kw with score := 0, semanticRank := 0, keywordRank := 1, stabilityIndex := 0 }

/-- C10 witness: the pipeline applied to one sparse-only chunk. -/
theorem fts_sparse_only_trust_zero_witness :
    c10res ∈ hybridPipeline {} IntentType.General 0 0 0 0 0 []
        ([({} : ChunkRow)].map (fun c => parseFtsThreadRow 0 (mkFtsRow c))) ∧
    c10res.id ∉ (([] : List VectorEntry).map (·.id)) ∧
    c10res.trustScore = 0 := by
  have hmem : c10res ∈ hybridPipeline {} IntentType.General 0 0 0 0 0 []
      ([({} : ChunkRow)].map (fun c => parseFtsThreadRow 0 (mkFtsRow c))) := by
    simp [hybridPipeline, fuseResults, fusedKeys, sortedKeys, insertAscending,
      List.dedup_cons_of_not_mem, entryFor, lastOccurrenceFrom, fusedScore,
      semanticContribution, keywordRrfSumFrom, rankOf, applyStabilityBias,
      stabilityMultiplier, sortByScoreDesc, insertDescByScore, applyMmr,
      applyExploration, c10res, c10kw, List.find?]
  exact ⟨hmem, by simp,
    fts_sparse_only_trust_zero.2.2 {} IntentType.General 0 0 0 0 0 [] 0 [{}] c10res
      hmem (by simp)⟩

/-! ## Dimension guardrail (search path of the `embeddingsReady` handler) -/

/-- Outcome of issuing a query embedding to the search pipeline. -/
inductive SearchOutcome
  | dimensionMismatchError
  | results (entries : List VectorEntry)
  deriving Repr, DecidableEq

/-- The search path of `mainwindow.cpp`'s `embeddingsReady` handler: read the
registered dimension; when one is registered (`> 0`) and the query embedding's
size differs, raise the dedicated dimension-mismatch guardrail error and do
not run any search; only otherwise invoke the (dense or hybrid) search,
abstracted here as `runSearch`. -/
def onEmbeddingsReady (s : VectorStoreState) (embedding : List ℚ)
    (runSearch : List ℚ → List VectorEntry) : SearchOutcome :=
  let regDim := getRegisteredDimensionS s
  if 0 < regDim ∧ (embedding.length : Int) ≠ regDim then
    SearchOutcome.dimensionMismatchError
  else SearchOutcome.results (runSearch embedding)

/-- C5: whenever a workspace has a registered embedding dimension and the
query vector's length differs from it, the guardrail error is raised and no
ranked result list is produced. -/
theorem dimension_guardrail (s : VectorStoreState) (embedding : List ℚ)
    (runSearch : List ℚ → List VectorEntry)
    (h1 : 0 < getRegisteredDimensionS s)
    (h2 : (embedding.length : Int) ≠ getRegisteredDimensionS s) :
    onEmbeddingsReady s embedding runSearch = SearchOutcome.dimensionMismatchError := by
  unfold onEmbeddingsReady
  rw [if_pos ⟨h1, h2⟩]

/-- A workspace whose registered dimension is 3. -/
def wsDim3 : VectorStoreState := { metadata := [(dimKey, "3")] }

/-- C5 witness: a 2-dimensional query against a 3-dimensional workspace. -/
theorem dimension_guardrail_witness :
    0 < getRegisteredDimensionS wsDim3 ∧
    ((([(1 : ℚ), 0]).length : Int) ≠ getRegisteredDimensionS wsDim3) ∧
    onEmbeddingsReady wsDim3 [1, 0] (fun _ => []) =
      SearchOutcome.dimensionMismatchError := by
  have h1 : 0 < getRegisteredDimensionS wsDim3 := by decide
  have h2 : ((([(1 : ℚ), 0]).length : Int) ≠ getRegisteredDimensionS wsDim3) := by decide
  exact ⟨h1, h2, dimension_guardrail wsDim3 [1, 0] (fun _ => []) h1 h2⟩

/-! ## Two-layer query cache (`hybridSearch` entry) -/

/-- The two cache layers of `VectorStore`: `m_queryCache` (exact, keyed by
canonicalized query) and `m_semanticCache` (embedding-keyed).  Both start
empty in the constructor. -/
structure QueryCacheState where
  exactCache : List (String × List VectorEntry) := []
  semanticCache : List (List ℚ × List VectorEntry) := []
  deriving Repr, DecidableEq

/-- How a hybrid query was answered. -/
inductive CacheOutcome
  | exactHit
  | semanticHit
  | miss
  deriving Repr, DecidableEq

/-- `queryText.trimmed().toLower()`. -/
def canonicalQueryOf (q : String) : String := q.trim.toLower

/-- The cache prologue and epilogue of `hybridSearch`: Layer 1 exact lookup on
the canonical query; then Layer 2 — a linear scan of the semantic cache
declaring a hit when `cosineSimilarity(queryEmbedding, entry.embedding)`
exceeds `options.semanticThreshold`; on a miss the computed result is inserted
into the exact layer only.  `sim` stands for `cosineSimilarity` (an
irrational-valued computation; no property below depends on its values) and
`compute` for the retrieval pipeline run on a miss. -/
def hybridSearchCacheStep (sim : List ℚ → List ℚ → ℚ) (threshold : ℚ)
    (compute : String → List ℚ → List VectorEntry)
    (st : QueryCacheState) (queryText : String) (emb : List ℚ) :
    List VectorEntry × QueryCacheState × CacheOutcome :=
  let canonical := canonicalQueryOf queryText
  match st.exactCache.find? (fun kv => kv.1 = canonical) with
  | some kv => (kv.2, st, CacheOutcome.exactHit)
  | none =>
    match st.semanticCache.find? (fun entry => threshold < sim emb entry.1) with
    | some entry => (entry.2, st, CacheOutcome.semanticHit)
    | none =>
      let res := compute queryText emb
      (res, { st with exactCache := (canonical, res) :: st.exactCache }, CacheOutcome.miss)

/-- A fresh `VectorStore`'s caches (the constructor creates both empty). -/
def initialCacheState : QueryCacheState := {}

/-- Run a sequence of hybrid queries against the cache, threading the state;
returns the per-query outcomes. -/
def runHybridQueries (sim : List ℚ → List ℚ → ℚ) (threshold : ℚ)
    (compute : String → List ℚ → List VectorEntry) :
    QueryCacheState → List (String × List ℚ) → List CacheOutcome
  | _, [] => []
  | st, (q, emb) :: rest =>
    let r := hybridSearchCacheStep sim threshold compute st q emb
    r.2.2 :: runHybridQueries sim threshold compute r.2.1 rest

theorem cacheStep_semanticCache (sim : List ℚ → List ℚ → ℚ) (threshold : ℚ)
    (compute : String → List ℚ → List VectorEntry) (st : QueryCacheState)
    (q : String) (emb : List ℚ) :
    (hybridSearchCacheStep sim threshold compute st q emb).2.1.semanticCache =
      st.semanticCache := by
  unfold hybridSearchCacheStep
  rcases hf1 : st.exactCache.find? (fun kv => kv.1 = canonicalQueryOf q) with _ | kv
  · rcases hf2 : st.semanticCache.find? (fun entry => threshold < sim emb entry.1) with _ | e
    · simp [hf1, hf2]
    · simp [hf1, hf2]
  · simp [hf1]

theorem cacheStep_no_semanticHit_of_empty (sim : List ℚ → List ℚ → ℚ) (threshold : ℚ)
    (compute : String → List ℚ → List VectorEntry) (st : QueryCacheState)
    (q : String) (emb : List ℚ) (hempty : st.semanticCache = []) :
    (hybridSearchCacheStep sim threshold compute st q emb).2.2 ≠
      CacheOutcome.semanticHit := by
  unfold hybridSearchCacheStep
  rcases hf1 : st.exactCache.find? (fun kv => kv.1 = canonicalQueryOf q) with _ | kv
  · simp [hf1, hempty, List.find?]
  · simp [hf1]

theorem runHybridQueries_no_semanticHit_aux (sim : List ℚ → List ℚ → ℚ)
    (threshold : ℚ) (compute : String → List ℚ → List VectorEntry) :
    ∀ (qs : List (String × List ℚ)) (st : QueryCacheState),
      st.semanticCache = [] →
      CacheOutcome.semanticHit ∉ runHybridQueries sim threshold compute st qs := by
  intro qs
  induction qs with
  | nil => intro st _ h; simp [runHybridQueries] at h
  | cons q rest ih =>
    intro st hempty h
    obtain ⟨qt, emb⟩ := q
    simp only [runHybridQueries, List.mem_cons] at h
    rcases h with h | h
    · exact cacheStep_no_semanticHit_of_empty sim threshold compute st qt emb hempty h.symm
    · exact ih _ ((cacheStep_semanticCache sim threshold compute st qt emb).trans hempty) h

/-- C6 amended: starting from a fresh store, no sequence of hybrid queries —
whatever the query texts, embeddings, similarity values, or computed results —
ever produces a semantic-layer cache hit: the semantic cache is scanned on
lookup but no code path inserts into it (misses populate only the exact
layer). -/
theorem semantic_cache_never_hits (sim : List ℚ → List ℚ → ℚ) (threshold : ℚ)
    (compute : String → List ℚ → List VectorEntry) (qs : List (String × List ℚ)) :
    CacheOutcome.semanticHit ∉ runHybridQueries sim threshold compute initialCacheState qs :=
  runHybridQueries_no_semanticHit_aux sim threshold compute qs initialCacheState rfl

/-- C6 counterexample: two successive hybrid queries with different canonical
texts whose embeddings are identical (`[1, 0]`, so their cosine similarity —
here the constant function 1 — exceeds the 0.95 threshold).  The claim
predicts the second query is a semantic-layer cache hit; in fact the first
query misses and neither query is a semantic hit. -/
theorem semantic_cache_cx :
    (runHybridQueries (fun _ _ => 1) (19/20) (fun _ _ => []) initialCacheState
        [("what is a cache", [1, 0]), ("define the cache", [1, 0])]).head? =
      some CacheOutcome.miss ∧
    (runHybridQueries (fun _ _ => 1) (19/20) (fun _ _ => []) initialCacheState
        [("what is a cache", [1, 0]), ("define the cache", [1, 0])]).length = 2 ∧
    CacheOutcome.semanticHit ∉
      runHybridQueries (fun _ _ => 1) (19/20) (fun _ _ => []) initialCacheState
        [("what is a cache", [1, 0]), ("define the cache", [1, 0])] :=
  ⟨rfl, rfl,
    runHybridQueries_no_semanticHit_aux (fun _ _ => 1) (19/20) (fun _ _ => []) _
      initialCacheState rfl⟩

/-! ## Rerank client rolling statistics (`LocalRerankClient`, gemini_api.cpp) -/

/-- The rolling calibration state of `LocalRerankClient` (constructor
defaults `mean = 0.5`, `stdDev = 0.15`, `sampleCount = 0`). -/
structure RerankStats where
  mean : ℚ := 1/2
  stdDev : ℚ := 3/20
  sampleCount : Nat := 0
  deriving Repr, DecidableEq

/-- Mean of a batch of scores. -/
def batchMeanOf (batch : List ℚ) : ℚ := batch.sum / batch.length

/-- `LocalRerankClient::updateStats`: empty batches are ignored; with more
than 5 samples seen, a batch mean drifting from the rolling mean by more than
0.4 resets the sample count to 0, making this batch re-initialize the mean
(and the deviation) directly; otherwise EMA blending with `alpha = 0.15`.
`sqrtF` stands for `std::sqrt` (irrational-valued; no verified property
depends on the standard deviation). -/
def updateStats (sqrtF : ℚ → ℚ) (st : RerankStats) (batch : List ℚ) : RerankStats :=
  if batch.isEmpty then st
  else
    let batchMean := batchMeanOf batch
    let count1 := if 5 < st.sampleCount ∧ (2/5 : ℚ) < |batchMean - st.mean| then 0
      else st.sampleCount
    let alpha : ℚ := 3/20
    let mean1 := if count1 = 0 then batchMean else (1 - alpha) * st.mean + alpha * batchMean
    let sqSum := (batch.map (fun v => (v - mean1) * (v - mean1))).sum
    let batchStd := sqrtF (sqSum / batch.length)
    let std1 := if count1 = 0 then qMaxQ (1/100) batchStd
      else (1 - alpha) * st.stdDev + alpha * qMaxQ (1/100) batchStd
    { mean := mean1, stdDev := std1, sampleCount := count1 + 1 }

/-- `LocalRerankClient::loadStats`: persisted statistics (when the persisted
deviation is positive) seed the state with `sampleCount = 10`, so drift
detection is active immediately. -/
def loadStats (st : RerankStats) (mean stdDev : ℚ) : RerankStats :=
  if 0 < stdDev then { mean := mean, stdDev := stdDev, sampleCount := 10 } else st

/-- C8 amended: the drift reset fires only when **more than 5** samples have
been seen (`m_sampleCount > 5`, i.e. at least 6); it sets the count to 0 so
the deviating batch re-initializes the mean directly (leaving count 1).  With
1–5 samples seen, the same deviating batch is EMA-blended and the count just
increments. -/
theorem drift_reset_char (sqrtF : ℚ → ℚ) (st : RerankStats) (batch : List ℚ)
    (hne : batch ≠ []) (hdrift : (2/5 : ℚ) < |batchMeanOf batch - st.mean|) :
    (5 < st.sampleCount →
      (updateStats sqrtF st batch).sampleCount = 1 ∧
      (updateStats sqrtF st batch).mean = batchMeanOf batch) ∧
    (0 < st.sampleCount → st.sampleCount ≤ 5 →
      (updateStats sqrtF st batch).sampleCount = st.sampleCount + 1 ∧
      (updateStats sqrtF st batch).mean =
        (1 - 3/20) * st.mean + (3/20) * batchMeanOf batch) := by
  have hne' : batch.isEmpty = false := by
    cases batch with
    | nil => exact absurd rfl hne
    | cons a l => rfl
  constructor
  · intro hgt
    have hcond : (5 < st.sampleCount ∧ (2/5 : ℚ) < |batchMeanOf batch - st.mean|) :=
      ⟨hgt, hdrift⟩
    simp [updateStats, hne', hcond]
  · intro hpos hle
    have hcond : ¬ (5 < st.sampleCount ∧ (2/5 : ℚ) < |batchMeanOf batch - st.mean|) := by
      intro ⟨h5, _⟩; omega
    have hcz : ¬ st.sampleCount = 0 := by omega
    simp [updateStats, hne', hcond, hcz]

/-- C8 witness: the amended statement at a concrete post-warmup state
(6 samples seen) and a deviating batch. -/
theorem drift_reset_char_witness :
    (5 < (⟨1/2, 3/20, 6⟩ : RerankStats).sampleCount →
      (updateStats (fun _ => 0) ⟨1/2, 3/20, 6⟩ [0, 0]).sampleCount = 1 ∧
      (updateStats (fun _ => 0) ⟨1/2, 3/20, 6⟩ [0, 0]).mean = batchMeanOf [0, 0]) ∧
    (0 < (⟨1/2, 3/20, 6⟩ : RerankStats).sampleCount →
      (⟨1/2, 3/20, 6⟩ : RerankStats).sampleCount ≤ 5 →
      (updateStats (fun _ => 0) ⟨1/2, 3/20, 6⟩ [0, 0]).sampleCount =
        (⟨1/2, 3/20, 6⟩ : RerankStats).sampleCount + 1 ∧
      (updateStats (fun _ => 0) ⟨1/2, 3/20, 6⟩ [0, 0]).mean =
        (1 - 3/20) * (⟨1/2, 3/20, 6⟩ : RerankStats).mean +
          (3/20) * batchMeanOf [0, 0]) :=
  drift_reset_char (fun _ => 0) ⟨1/2, 3/20, 6⟩ [0, 0] (by simp)
    (by norm_num [batchMeanOf, lt_abs])

/-- C8 counterexample: exactly 5 samples seen, batch mean 0 deviating by 0.5
(> 0.4) from the rolling mean 0.5.  The claim ("after at least 5 samples")
predicts a reset — count re-initialized, mean set to the batch mean.  The
code requires `m_sampleCount > 5`, so no reset happens: the count goes to 6
and the mean is EMA-blended to 0.425, not 0. -/
theorem drift_reset_cx :
    (2/5 : ℚ) < |batchMeanOf [0, 0] - (⟨1/2, 3/20, 5⟩ : RerankStats).mean| ∧
    (updateStats (fun _ => 0) ⟨1/2, 3/20, 5⟩ [0, 0]).sampleCount = 6 ∧
    (updateStats (fun _ => 0) ⟨1/2, 3/20, 5⟩ [0, 0]).mean = 17/40 ∧
    ((17/40 : ℚ) ≠ batchMeanOf [0, 0] ∧ (6 : Nat) ≠ 1) := by
  refine ⟨by norm_num [batchMeanOf, lt_abs], ?_, ?_, by norm_num [batchMeanOf], by norm_num⟩
  · norm_num [updateStats, batchMeanOf]
  · norm_num [updateStats, batchMeanOf]

/-! ## Vector blob encoding (`vectorToBlob` / `blobToVector`) -/

/-- The four bytes of one 32-bit IEEE-754 `float` as laid out in memory
(little-endian byte order on the supported platforms).  `memcpy`-style
copying preserves these bytes exactly, so the round-trip facts below are
byte-exact. -/
structure FloatBits where
  b0 : UInt8
  b1 : UInt8
  b2 : UInt8
  b3 : UInt8
  deriving Repr, DecidableEq, Inhabited

/-- `VectorStore::vectorToBlob`: the raw float bytes concatenated, without
header or length prefix (`vec.size() * sizeof(float)` bytes). -/
def vectorToBlob : List FloatBits → List UInt8
  | [] => []
  | f :: rest => f.b0 :: f.b1 :: f.b2 :: f.b3 :: vectorToBlob rest

/-- `VectorStore::blobToVector`: `count = blob.size() / 4` floats, read as
consecutive 4-byte groups (trailing bytes beyond a multiple of 4 contribute
no float). -/
def blobToVector : List UInt8 → List FloatBits
  | a :: b :: c :: d :: rest => ⟨a, b, c, d⟩ :: blobToVector rest
  | _ => []

theorem blobToVector_length : ∀ (blob : List UInt8),
    (blobToVector blob).length = blob.length / 4
  | [] => by simp [blobToVector]
  | [_] => by simp [blobToVector]
  | [_, _] => by simp [blobToVector]
  | [_, _, _] => by simp [blobToVector]
  | a :: b :: c :: d :: rest => by
    have ih := blobToVector_length rest
    simp only [blobToVector, List.length_cons, ih]
    omega

/-- C9: decoding inverts encoding byte-exactly — `blobToVector (vectorToBlob v)
= v` for every float vector — the blob holds exactly `4 · length` bytes (raw
floats concatenated, no header or length prefix), and the decoder infers the
vector length as `blob_bytes / 4`. -/
theorem blob_roundtrip :
    (∀ (v : List FloatBits), blobToVector (vectorToBlob v) = v) ∧
    (∀ (v : List FloatBits), (vectorToBlob v).length = 4 * v.length) ∧
    (∀ (blob : List UInt8), (blobToVector blob).length = blob.length / 4) := by
  refine ⟨?_, ?_, blobToVector_length⟩
  · intro v
    induction v with
    | nil => rfl
    | cons f rest ih =>
      simp only [vectorToBlob, blobToVector, ih]
  · intro v
    induction v with
    | nil => rfl
    | cons f rest ih =>
      simp only [vectorToBlob, List.length_cons, ih]
      omega
